import Mathlib

/-!
Verification development for the genome coordinate model of
`mirnylib/genome.py`.

The Python source is shallowly embedded: numpy integer arrays become
`List Nat` (or `List Int` where the source holds negative sentinels),
numpy elementwise operations become `List.map` / `List.zipWith`, and
Python integer division on nonnegative values becomes `Nat` division
(`Int.fdiv` where operands may be negative, matching Python floor
division).  Each definition is annotated with the line of `genome.py`
it embeds.
-/

namespace Mirnylib

/-- Embedding of `max(self.chrmLens)` (`Genome.__init__`, line 217);
`0` for the empty list, a case the constructor rules out because a genome
folder with no chromosome files is a fatal error. -/
def maxChrmLen (chrmLens : List Nat) : Nat :=
  chrmLens.foldl Nat.max 0

/-- Identifier multiplier from `Genome.__init__`, line 219:
`self.fragIDmult = self.maxChrmLen + 1000`. -/
def fragIDmult (chrmLens : List Nat) : Nat :=
  maxChrmLen chrmLens + 1000

/-- Positional identifier encoding used throughout `genome.py`, for example
`self.rsites[chrm] + chrm * self.fragIDmult` in `setEnzyme` (line 450). -/
def encodeId (m chrm offset : Nat) : Nat :=
  chrm * m + offset

/-- Chromosome component of a positional identifier, as in
`fragments1 / self.fragIDmult` in `getFragmentDistance` (line 494);
Python integer division on nonnegative operands is `Nat` division. -/
def decodeChrm (m pid : Nat) : Nat :=
  pid / m

/-- Offset component of a positional identifier, `id % fragIDmult`. -/
def decodeOffset (m pid : Nat) : Nat :=
  pid % m

/-- Per-chromosome bin counts from `setResolution` (line 335):
`self.chrmLensBin = self.chrmLens / self.resolution + 1`
(numpy integer division on a nonnegative integer array). -/
def chrmLensBin (chrmLens : List Nat) (resolution : Nat) : List Nat :=
  chrmLens.map (fun L => L / resolution + 1)

/-- Inclusive prefix sums: the embedding of `numpy.cumsum`. -/
def cumsum : List Nat → List Nat
  | [] => []
  | x :: xs => x :: (cumsum xs).map (x + ·)

/-- Embedding of `self.chrmEndsBinCont = numpy.cumsum(self.chrmLensBin)`
(`setResolution`, line 337). -/
def chrmEndsBinCont (chrmLens : List Nat) (r : Nat) : List Nat :=
  cumsum (chrmLensBin chrmLens r)

/-- Embedding of
`self.chrmStartsBinCont = numpy.r_[0, numpy.cumsum(self.chrmLensBin)[:-1]]`
(`setResolution`, line 336). -/
def chrmStartsBinCont (chrmLens : List Nat) (r : Nat) : List Nat :=
  0 :: (chrmEndsBinCont chrmLens r).dropLast

/-- Embedding of `self.numBins = self.chrmEndsBinCont[-1]`
(`setResolution`, line 338). -/
def numBins (chrmLens : List Nat) (r : Nat) : Nat :=
  (chrmEndsBinCont chrmLens r).getLastD 0

/-- Embedding of `Genome.splitByChrms` (lines 368-370):
`[inArray[self.chrmStartsBinCont[i]:self.chrmEndsBinCont[i]] for i in ...]`.
A Python slice `a[s:e]` with `0 <= s <= e` is `(a.take e).drop s`. -/
def splitByChrms {α : Type} (chrmLens : List Nat) (r : Nat) (inArray : List α) :
    List (List α) :=
  List.zipWith (fun s e => (inArray.take e).drop s)
    (chrmStartsBinCont chrmLens r) (chrmEndsBinCont chrmLens r)

lemma fragIDmult_pos (chrmLens : List Nat) : 0 < fragIDmult chrmLens := by
  unfold fragIDmult
  omega

/-- C1: for every chromosome index `c` and every offset `o` below
`fragIDmult`, decoding the encoded positional identifier recovers the pair:
`(c * fragIDmult + o) / fragIDmult = c` and
`(c * fragIDmult + o) % fragIDmult = o`. -/
theorem fragId_roundtrip (chrmLens : List Nat) (c o : Nat)
    (ho : o < fragIDmult chrmLens) :
    decodeChrm (fragIDmult chrmLens) (encodeId (fragIDmult chrmLens) c o) = c ∧
    decodeOffset (fragIDmult chrmLens) (encodeId (fragIDmult chrmLens) c o) = o := by
  have hm : 0 < fragIDmult chrmLens := fragIDmult_pos chrmLens
  constructor
  · unfold decodeChrm encodeId
    rw [Nat.mul_comm, Nat.mul_add_div hm, Nat.div_eq_of_lt ho, Nat.add_zero]
  · unfold decodeOffset encodeId
    rw [Nat.mul_comm, Nat.mul_add_mod, Nat.mod_eq_of_lt ho]

/-- Witness for C1 at a concrete genome and pair. -/
theorem fragId_roundtrip_witness :
    700 < fragIDmult [5] ∧
    decodeChrm (fragIDmult [5]) (encodeId (fragIDmult [5]) 3 700) = 3 ∧
    decodeOffset (fragIDmult [5]) (encodeId (fragIDmult [5]) 3 700) = 700 :=
  ⟨by decide, fragId_roundtrip [5] 3 700 (by decide)⟩

lemma getLastD_map_add (x : Nat) (c : List Nat) (a : Nat) (h : c ≠ []) :
    (c.map (x + ·)).getLastD a = x + c.getLastD 0 := by
  induction c generalizing a with
  | nil => exact absurd rfl h
  | cons y t ih =>
    cases t with
    | nil => simp
    | cons z u => simpa using ih (a := y) (by simp)

lemma getLastD_cumsum (l : List Nat) : (cumsum l).getLastD 0 = l.sum := by
  induction l with
  | nil => simp [cumsum]
  | cons x xs ih =>
    cases xs with
    | nil => simp [cumsum]
    | cons y u =>
      have hne : cumsum (y :: u) ≠ [] := by simp [cumsum]
      have h1 : cumsum (x :: y :: u) = x :: (cumsum (y :: u)).map (x + ·) := rfl
      rw [h1, List.getLastD_cons, getLastD_map_add x (cumsum (y :: u)) x hne, ih]
      simp [List.sum_cons]

/-- C3: after `setResolution(r)` with positive `r`, every chromosome has
`chrmLensBin[c] = chrmLens[c] / r + 1` (floor division), and the totals agree:
`sum(chrmLensBin) = numBins` and `chrmEndsBinCont[-1] = numBins`. -/
theorem setResolution_binning (chrmLens : List Nat) (r : Nat)
    (hr : 0 < r) (hne : chrmLens ≠ []) :
    (∀ c (hc : c < chrmLens.length),
        (chrmLensBin chrmLens r).get ⟨c, by simpa [chrmLensBin] using hc⟩ =
          chrmLens.get ⟨c, hc⟩ / r + 1) ∧
    (chrmLensBin chrmLens r).sum = numBins chrmLens r ∧
    (chrmEndsBinCont chrmLens r).getLastD 0 = numBins chrmLens r := by
  refine ⟨fun c hc => ?_, ?_, rfl⟩
  · simp [chrmLensBin]
  · unfold numBins chrmEndsBinCont
    rw [getLastD_cumsum]

/-- Witness for C3 on the concrete genome of the repository test suite. -/
theorem setResolution_binning_witness :
    0 < 100 ∧ ([49950, 49950, 24950, 49950] : List Nat) ≠ [] ∧
    ((chrmLensBin [49950, 49950, 24950, 49950] 100).sum =
        numBins [49950, 49950, 24950, 49950] 100 ∧
      (chrmEndsBinCont [49950, 49950, 24950, 49950] 100).getLastD 0 =
        numBins [49950, 49950, 24950, 49950] 100) :=
  ⟨by decide, by decide,
    (setResolution_binning [49950, 49950, 24950, 49950] 100
        (by decide) (by decide)).2⟩

lemma slice_shift {α : Type} (arr : List α) (b s e : Nat) :
    (arr.take (b + e)).drop (b + s) = ((arr.drop b).take e).drop s := by
  rw [← List.drop_drop s b, List.drop_take]
  have hbe : b + e - b = e := by omega
  rw [hbe]

lemma flatten_slices {α : Type} :
    ∀ (bins : List Nat) (arr : List α), arr.length = bins.sum →
      (List.zipWith (fun s e => (arr.take e).drop s)
        (0 :: (cumsum bins).dropLast) (cumsum bins)).flatten = arr := by
  intro bins
  induction bins with
  | nil =>
    intro arr h
    simp only [List.sum_nil] at h
    simp [cumsum, List.length_eq_zero.mp h]
  | cons b bs ih =>
    intro arr h
    cases bs with
    | nil =>
      have hb : arr.length = b := by simpa using h
      simp [cumsum, ← hb, List.take_length]
    | cons y u =>
      have hcne : cumsum (y :: u) ≠ [] := by simp [cumsum]
      have hmapne : (cumsum (y :: u)).map (b + ·) ≠ [] := by
        simpa using hcne
      have hends : cumsum (b :: y :: u) =
          b :: (cumsum (y :: u)).map (b + ·) := rfl
      rw [hends, List.dropLast_cons_of_ne_nil hmapne, ← List.map_dropLast]
      have hstarts : (0 : Nat) :: b :: ((cumsum (y :: u)).dropLast.map (b + ·)) =
          0 :: (0 :: (cumsum (y :: u)).dropLast).map (b + ·) := by
        simp
      rw [hstarts]
      show ((arr.take b).drop 0 ::
          List.zipWith (fun s e => (arr.take e).drop s)
            ((0 :: (cumsum (y :: u)).dropLast).map (b + ·))
            ((cumsum (y :: u)).map (b + ·))).flatten = arr
      rw [List.zipWith_map]
      have hfun : (fun s e => (arr.take (b + e)).drop (b + s)) =
          (fun s e => ((arr.drop b).take e).drop s) := by
        funext s e
        exact slice_shift arr b s e
      have hlen : (arr.drop b).length = (y :: u).sum := by
        rw [List.length_drop]
        simp only [List.sum_cons] at h ⊢
        omega
      rw [List.flatten_cons, hfun, ih (arr.drop b) hlen, List.drop_zero,
        List.take_append_drop]

/-- C4: after `setResolution`, splitting any array of length `numBins` by
chromosomes and concatenating the slices in chromosome order yields the
original array: `splitByChrms` is an exact left inverse of concatenation. -/
theorem splitByChrms_flatten {α : Type} (chrmLens : List Nat) (r : Nat)
    (arr : List α) (h : arr.length = numBins chrmLens r) :
    (splitByChrms chrmLens r arr).flatten = arr := by
  unfold splitByChrms chrmStartsBinCont chrmEndsBinCont
  apply flatten_slices
  rw [h]
  unfold numBins chrmEndsBinCont
  rw [getLastD_cumsum]

/-- Witness for C4 on a concrete binned genome. -/
theorem splitByChrms_flatten_witness :
    (List.range 7).length = numBins [5, 2, 3] 2 ∧
    (splitByChrms [5, 2, 3] 2 (List.range 7)).flatten = List.range 7 :=
  ⟨by decide, splitByChrms_flatten [5, 2, 3] 2 (List.range 7) (by decide)⟩

/-- Cut-site array of one chromosome with both sentinels, before the leading
zero is dropped: the embedding of
`numpy.r_[0, numpy.array(enzymeSearchFunc(seq)) + 1, len(seq)]`
in `_getRsites` (lines 426-428).  `sites` is the list of cut positions
returned by the external enzyme search; `len` is the chromosome length. -/
def rsitesFull (sites : List Nat) (len : Nat) : List Nat :=
  0 :: (sites.map (· + 1) ++ [len])

/-- Fragment midpoints `(rsites[i][:-1] + rsites[i][1:]) / 2`
(`_getRsites`, line 429; numpy integer division on nonnegative values). -/
def fragMids (l : List Nat) : List Nat :=
  List.zipWith (fun a b => (a + b) / 2) l.dropLast l.tail

/-- Per-chromosome cut sites after the leading sentinel zero is removed
(`rsites[i] = rsites[i][1:]`, `_getRsites` line 434). -/
def rsitesChrm (sites : List Nat) (len : Nat) : List Nat :=
  (rsitesFull sites len).tail

/-- Per-chromosome fragment midpoints as returned by `_getRsites`. -/
def rfragMidsChrm (sites : List Nat) (len : Nat) : List Nat :=
  fragMids (rsitesFull sites len)

/-- Embedding of `self.rsites` as computed by `setEnzyme` (line 447) via
`_getRsites`; a genome is given per chromosome as the pair
(enzyme cut positions, chromosome length). -/
def rsites (chrms : List (List Nat × Nat)) : List (List Nat) :=
  chrms.map (fun sL => rsitesChrm sL.1 sL.2)

/-- Embedding of `self.rfragMids` as computed by `setEnzyme` (line 447). -/
def rfragMids (chrms : List (List Nat × Nat)) : List (List Nat) :=
  chrms.map (fun sL => rfragMidsChrm sL.1 sL.2)

/-- Embedding of `setEnzyme` lines 449-451:
`numpy.concatenate([self.rsites[chrm] + chrm * self.fragIDmult ...])`. -/
def rsiteIds (m : Nat) (chrms : List (List Nat × Nat)) : List Nat :=
  ((rsites chrms).enum.map (fun cl => cl.2.map (fun x => x + cl.1 * m))).flatten

/-- Embedding of `setEnzyme` lines 453-455:
`numpy.concatenate([self.rfragMids[chrm] + chrm * self.fragIDmult ...])`. -/
def rfragMidIds (m : Nat) (chrms : List (List Nat × Nat)) : List Nat :=
  ((rfragMids chrms).enum.map
    (fun cl => cl.2.map (fun x => x + cl.1 * m))).flatten

lemma rsitesChrm_length (sites : List Nat) (len : Nat) :
    (rsitesChrm sites len).length = sites.length + 1 := by
  simp [rsitesChrm, rsitesFull]

lemma rfragMidsChrm_length (sites : List Nat) (len : Nat) :
    (rfragMidsChrm sites len).length = sites.length + 1 := by
  simp [rfragMidsChrm, fragMids, rsitesFull]

/-- C5: after `setEnzyme`, the per-chromosome cut-site array (leading sentinel
removed) and the fragment-midpoint array have equal length, and the global
identifier arrays have equal length, so the assertion in `setEnzyme` holds. -/
theorem setEnzyme_lengths (m : Nat) (chrms : List (List Nat × Nat)) :
    (∀ sL ∈ chrms,
        (rsitesChrm sL.1 sL.2).length = (rfragMidsChrm sL.1 sL.2).length) ∧
    (rsiteIds m chrms).length = (rfragMidIds m chrms).length := by
  constructor
  · intro sL _
    rw [rsitesChrm_length, rfragMidsChrm_length]
  · unfold rsiteIds rfragMidIds rsites rfragMids
    rw [List.length_flatten, List.length_flatten]
    rw [List.enum_map, List.enum_map]
    simp only [List.map_map]
    congr 1
    apply List.map_congr_left
    intro cl _
    simp only [Function.comp_apply, List.length_map, Prod.map]
    rw [rsitesChrm_length, rfragMidsChrm_length]

/-- Witness for C5 at a concrete enzyme digest. -/
theorem setEnzyme_lengths_witness :
    (rsiteIds 2000 [([3, 7], 10), ([], 4)]).length =
      (rfragMidIds 2000 [([3, 7], 10), ([], 4)]).length :=
  (setEnzyme_lengths 2000 [([3, 7], 10), ([], 4)]).2

/-- Left insertion rank of `v` in a sorted array: the embedding of
`numpy.searchsorted(a, v)` (`getFragmentDistance`, lines 490-491), which for
a sorted array `a` returns the number of elements strictly below `v`. -/
def searchsorted (l : List Nat) (v : Nat) : Nat :=
  l.countP (fun x => decide (x < v))

/-- Distance for one pair of fragment identifiers in `getFragmentDistance`
(lines 490-496): the absolute rank difference, overwritten by the sentinel
`1000000` where the decoded chromosomes differ
(`distance[ch1 != ch2] = 1000000`). -/
def fragDistOne (ids : List Nat) (m : Nat) (f1 f2 : Nat) : Int :=
  if decodeChrm m f1 ≠ decodeChrm m f2 then 1000000
  else |(searchsorted ids f1 : Int) - (searchsorted ids f2 : Int)|

/-- Elementwise `getFragmentDistance(fragments1, fragments2, enzymeName)`
against the global fragment-midpoint identifier array of the genome. -/
def getFragmentDistance (m : Nat) (chrms : List (List Nat × Nat))
    (fs1 fs2 : List Nat) : List Int :=
  List.zipWith (fragDistOne (rfragMidIds m chrms) m) fs1 fs2

lemma fragDistOne_comm (ids : List Nat) (m f1 f2 : Nat) :
    fragDistOne ids m f1 f2 = fragDistOne ids m f2 f1 := by
  unfold fragDistOne
  rcases eq_or_ne (decodeChrm m f1) (decodeChrm m f2) with h | h
  · rw [h]
    simp [abs_sub_comm]
  · rw [if_pos h, if_pos (Ne.symm h)]

/-- C6: each output of `getFragmentDistance` for a pair with equal decoded
chromosome components is the absolute difference of the two identifiers'
insertion ranks in the sorted global fragment-midpoint-identifier array;
pairs with different decoded chromosomes get the sentinel `1000000` instead
of an error; and the query is symmetric under swapping its two arguments. -/
theorem getFragmentDistance_spec (m : Nat) (chrms : List (List Nat × Nat))
    (f1 f2 : Nat) (fs1 fs2 : List Nat) :
    (decodeChrm m f1 = decodeChrm m f2 →
        fragDistOne (rfragMidIds m chrms) m f1 f2 =
          |(searchsorted (rfragMidIds m chrms) f1 : Int) -
            (searchsorted (rfragMidIds m chrms) f2 : Int)|) ∧
    (decodeChrm m f1 ≠ decodeChrm m f2 →
        fragDistOne (rfragMidIds m chrms) m f1 f2 = 1000000) ∧
    getFragmentDistance m chrms fs1 fs2 = getFragmentDistance m chrms fs2 fs1 := by
  refine ⟨fun h => ?_, fun h => ?_, ?_⟩
  · unfold fragDistOne
    rw [if_neg (by simpa using h)]
  · unfold fragDistOne
    rw [if_pos h]
  · unfold getFragmentDistance
    exact List.zipWith_comm_of_comm _
      (fun a b => fragDistOne_comm (rfragMidIds m chrms) m a b) fs1 fs2

/-- Witness for C6: a same-chromosome pair and a cross-chromosome pair on a
concrete digest (`fragIDmult` of one chromosome of length 10 is 1010). -/
theorem getFragmentDistance_witness :
    fragDistOne (rfragMidIds 1010 [([3, 7], 10)]) 1010 4 9 =
      |(searchsorted (rfragMidIds 1010 [([3, 7], 10)]) 4 : Int) -
        (searchsorted (rfragMidIds 1010 [([3, 7], 10)]) 9 : Int)| ∧
    fragDistOne (rfragMidIds 1010 [([3, 7], 10)]) 1010 4 1015 = 1000000 :=
  ⟨(getFragmentDistance_spec 1010 [([3, 7], 10)] 4 9 [] []).1 (by decide),
    (getFragmentDistance_spec 1010 [([3, 7], 10)] 4 1015 [] []).2.1 (by decide)⟩

lemma fragMids_cons_cons (a b : Nat) (u : List Nat) :
    fragMids (a :: b :: u) = (a + b) / 2 :: fragMids (b :: u) := by
  unfold fragMids
  rw [List.dropLast_cons₂]
  rfl

lemma chain'_fragMids (l : List Nat) (h : l.Chain' (· ≤ ·)) :
    (fragMids l).Chain' (· ≤ ·) := by
  induction l with
  | nil => simp [fragMids]
  | cons a t ih =>
    cases t with
    | nil => simp [fragMids]
    | cons b u =>
      obtain ⟨hab, hbu⟩ := List.chain'_cons.mp h
      rw [fragMids_cons_cons]
      cases u with
      | nil => simp [fragMids]
      | cons c v =>
        have ihb := ih hbu
        rw [fragMids_cons_cons] at ihb ⊢
        obtain ⟨hbc, _⟩ := List.chain'_cons.mp hbu
        exact List.chain'_cons.mpr ⟨Nat.div_le_div_right (by omega), ihb⟩

lemma fragMids_le (B : Nat) (l : List Nat) (hl : ∀ x ∈ l, x ≤ B) :
    ∀ y ∈ fragMids l, y ≤ B := by
  induction l with
  | nil => simp [fragMids]
  | cons a t ih =>
    cases t with
    | nil => simp [fragMids]
    | cons b u =>
      intro y hy
      rw [fragMids_cons_cons] at hy
      rcases List.mem_cons.mp hy with h | h
      · have ha := hl a (by simp)
        have hb := hl b (by simp)
        omega
      · exact ih (fun x hx => hl x (List.mem_cons_of_mem a hx)) y h

lemma chain'_rsitesFull (sites : List Nat) (len : Nat)
    (hs : sites.Chain' (· ≤ ·)) (hb : ∀ x ∈ sites, x + 1 ≤ len) :
    (rsitesFull sites len).Chain' (· ≤ ·) := by
  unfold rsitesFull
  refine List.chain'_cons'.mpr ⟨fun y _ => Nat.zero_le y, ?_⟩
  refine List.chain'_append.mpr ⟨?_, List.chain'_singleton len, ?_⟩
  · rw [List.chain'_map]
    exact hs.imp (fun a b hab => by omega)
  · intro x hx y hy
    have hmem : x ∈ sites.map (· + 1) := List.mem_of_mem_getLast? hx
    obtain ⟨s, hsm, rfl⟩ := List.mem_map.mp hmem
    have hyl : len = y := by simpa using hy
    rw [← hyl]
    exact hb s hsm

lemma rsitesFull_le (sites : List Nat) (len : Nat)
    (hb : ∀ x ∈ sites, x + 1 ≤ len) :
    ∀ x ∈ rsitesFull sites len, x ≤ len := by
  intro x hx
  unfold rsitesFull at hx
  rcases List.mem_cons.mp hx with rfl | hx
  · exact Nat.zero_le len
  rcases List.mem_append.mp hx with hx | hx
  · obtain ⟨s, hsm, rfl⟩ := List.mem_map.mp hx
    have := hb s hsm
    omega
  · have hxl : x = len := by simpa using hx
    omega

lemma flatten_encode_lb (m : Nat) :
    ∀ (ls : List (List Nat)) (n y : Nat),
      y ∈ ((ls.enumFrom n).map
        (fun cl => cl.2.map (fun x => x + cl.1 * m))).flatten →
      n * m ≤ y := by
  intro ls
  induction ls with
  | nil => simp
  | cons l t ih =>
    intro n y hy
    rw [List.enumFrom_cons, List.map_cons, List.flatten_cons] at hy
    rcases List.mem_append.mp hy with h | h
    · obtain ⟨x, _, rfl⟩ := List.mem_map.mp h
      exact Nat.le_add_left _ _
    · have h1 := ih (n + 1) y h
      have h2 : n * m ≤ (n + 1) * m := Nat.mul_le_mul_right m (by omega)
      omega

lemma chain'_flatten_encode (m B : Nat) (hB : B < m) :
    ∀ (ls : List (List Nat)) (n : Nat),
      (∀ l ∈ ls, l.Chain' (· ≤ ·) ∧ ∀ x ∈ l, x ≤ B) →
      (((ls.enumFrom n).map
        (fun cl => cl.2.map (fun x => x + cl.1 * m))).flatten).Chain' (· ≤ ·) := by
  intro ls
  induction ls with
  | nil =>
    intro n _
    simp
  | cons l t ih =>
    intro n h
    have hl := h l (by simp)
    rw [List.enumFrom_cons, List.map_cons, List.flatten_cons]
    refine List.chain'_append.mpr
      ⟨?_, ih (n + 1) (fun x hx => h x (by simp [hx])), ?_⟩
    · rw [List.chain'_map]
      exact hl.1.imp (fun a b hab => by omega)
    · intro x hx y hy
      have hxm : x ∈ l.map (fun x => x + n * m) := List.mem_of_mem_getLast? hx
      obtain ⟨x0, hx0, rfl⟩ := List.mem_map.mp hxm
      have hylb := flatten_encode_lb m t (n + 1) y (List.mem_of_mem_head? hy)
      have hx0B : x0 ≤ B := hl.2 x0 hx0
      have hexp : (n + 1) * m = n * m + m := by ring
      omega

lemma foldl_max_bounds :
    ∀ (l : List Nat) (a : Nat),
      a ≤ l.foldl Nat.max a ∧ ∀ x ∈ l, x ≤ l.foldl Nat.max a := by
  intro l
  induction l with
  | nil => exact fun a => ⟨Nat.le_refl a, by simp⟩
  | cons y t ih =>
    intro a
    have hy := ih (Nat.max a y)
    refine ⟨le_trans (Nat.le_max_left a y) hy.1, ?_⟩
    intro x hx
    rcases List.mem_cons.mp hx with rfl | hx
    · exact le_trans (Nat.le_max_right a x) hy.1
    · exact hy.2 x hx

lemma le_maxChrmLen (l : List Nat) (x : Nat) (hx : x ∈ l) :
    x ≤ maxChrmLen l :=
  (foldl_max_bounds l 0).2 x hx

/-- C10: after `setEnzyme`, the global fragment-midpoint-identifier array
`rfragMidIds` is sorted in nondecreasing order, provided the enzyme search
returned, per chromosome, a nondecreasing list of cut positions that fit
inside the chromosome; within a chromosome consecutive fragment midpoints are
nondecreasing and the per-chromosome offset `chrm * fragIDmult` clears every
midpoint of the previous chromosome because `fragIDmult` exceeds every
chromosome length.  This is the precondition for the ordered searches of the
fragment queries. -/
theorem rfragMidIds_sorted (chrms : List (List Nat × Nat))
    (h : ∀ sL ∈ chrms, sL.1.Chain' (· ≤ ·) ∧ ∀ x ∈ sL.1, x + 1 ≤ sL.2) :
    List.Sorted (· ≤ ·)
      (rfragMidIds (fragIDmult (chrms.map Prod.snd)) chrms) := by
  apply List.chain'_iff_pairwise.mp
  unfold rfragMidIds
  have henum : (rfragMids chrms).enum = (rfragMids chrms).enumFrom 0 := rfl
  rw [henum]
  apply chain'_flatten_encode (fragIDmult (chrms.map Prod.snd))
    (maxChrmLen (chrms.map Prod.snd))
    (by unfold fragIDmult; omega)
  intro l hl
  obtain ⟨sL, hsL, rfl⟩ := List.mem_map.mp hl
  have hprops := h sL hsL
  unfold rfragMidsChrm
  constructor
  · exact chain'_fragMids _ (chain'_rsitesFull sL.1 sL.2 hprops.1 hprops.2)
  · intro x hx
    have hle := fragMids_le sL.2 (rsitesFull sL.1 sL.2)
      (rsitesFull_le _ _ hprops.2) x hx
    have hmax : sL.2 ≤ maxChrmLen (chrms.map Prod.snd) :=
      le_maxChrmLen _ _ (List.mem_map_of_mem Prod.snd hsL)
    omega

/-- Witness for C10 at a concrete two-chromosome digest. -/
theorem rfragMidIds_sorted_witness :
    (∀ sL ∈ ([([1, 3], 5), ([0], 4)] : List (List Nat × Nat)),
        sL.1.Chain' (· ≤ ·) ∧ ∀ x ∈ sL.1, x + 1 ≤ sL.2) ∧
    List.Sorted (· ≤ ·)
      (rfragMidIds (fragIDmult (([([1, 3], 5), ([0], 4)] :
        List (List Nat × Nat)).map Prod.snd)) [([1, 3], 5), ([0], 4)]) := by
  have hhyp : ∀ sL ∈ ([([1, 3], 5), ([0], 4)] : List (List Nat × Nat)),
      sL.1.Chain' (· ≤ ·) ∧ ∀ x ∈ sL.1, x + 1 ≤ sL.2 := by
    intro sL h
    simp only [List.mem_cons, List.not_mem_nil, or_false] at h
    rcases h with rfl | rfl
    · exact ⟨by simp, by decide⟩
    · exact ⟨by simp, by decide⟩
  exact ⟨hhyp, rfragMidIds_sorted [([1, 3], 5), ([0], 4)] hhyp⟩

/-- Embedding of Python 2 `str.isdigit` as used on chromosome labels in
`_scanGenomeFolder` (line 261): nonempty and all characters decimal digits. -/
def pyIsDigit (s : String) : Bool :=
  !s.data.isEmpty && s.data.all Char.isDigit

/-- Numeric sort key from `_scanGenomeFolder` line 263:
`int(re.findall(r"\d+$", x)[0])` is the value of the maximal trailing digit
run of the label (for an all-digit label, the whole label). -/
def numKey (s : String) : Nat :=
  ((s.data.reverse.takeWhile Char.isDigit).reverse).foldl
    (fun a c => a * 10 + (c.toNat - 48)) 0

/-- Numeric labels sorted naturally, `num_ids.sort(key=...)` (lines 261-263);
Python list.sort is a stable sort, embedded as a stable insertion sort. -/
def sortedNumIds (labels : List String) : List String :=
  (labels.filter pyIsDigit).insertionSort (fun a b => numKey a ≤ numKey b)

/-- One step of the reserved-label loop of `_scanGenomeFolder` (lines
271-274): when the label is present, remove its first occurrence and
reinsert it at the front of the list. -/
def moveToFront (x : String) (l : List String) : List String :=
  if x ∈ l then x :: l.erase x else l

/-- Non-numeric labels after the reserved-label loop
`for i in ["M", "Y", "X"]: ...` (lines 270-274). -/
def nonnumIds (labels : List String) : List String :=
  moveToFront "X" (moveToFront "Y"
    (moveToFront "M" (labels.filter (fun l => !pyIsDigit l))))

/-- Final chromosome label order produced by `_scanGenomeFolder`:
numeric labels first (`label2idx[num_ids[i]] = i`, lines 265-267), then the
non-numeric labels at the subsequent indices (lines 276-279); the index of a
label is its position in this list. -/
def scanOrder (labels : List String) : List String :=
  sortedNumIds labels ++ nonnumIds labels

/-- Description of the reserved-label policy that the code actually realizes,
stated independently of the loop: the labels X, Y, M that are present come
first, in exactly that order, followed by the other labels in discovery
order. -/
def reservedFront (l : List String) : List String :=
  (["X", "Y", "M"].filter (fun x => decide (x ∈ l))) ++
    l.filter (fun y => !decide (y ∈ (["X", "Y", "M"] : List String)))

lemma moveToFront_eq (x : String) (l : List String) (h : l.Nodup) :
    moveToFront x l =
      (if x ∈ l then [x] else []) ++ l.filter (fun y => y != x) := by
  unfold moveToFront
  by_cases hx : x ∈ l
  · rw [if_pos hx, if_pos hx, h.erase_eq_filter]
    rfl
  · rw [if_neg hx, if_neg hx, List.nil_append]
    symm
    apply List.filter_eq_self.mpr
    intro y hy
    simp only [bne_iff_ne, ne_eq]
    exact fun hyx => hx (hyx ▸ hy)

lemma moveToFront_perm (x : String) (l : List String) :
    (moveToFront x l).Perm l := by
  unfold moveToFront
  by_cases hx : x ∈ l
  · rw [if_pos hx]
    exact (List.perm_cons_erase hx).symm
  · rw [if_neg hx]

lemma reserved_loop_eq (l : List String) (h : l.Nodup) :
    moveToFront "X" (moveToFront "Y" (moveToFront "M" l)) = reservedFront l := by
  have h1 : (moveToFront "M" l).Nodup :=
    ((moveToFront_perm "M" l).nodup_iff).mpr h
  have h2 : (moveToFront "Y" (moveToFront "M" l)).Nodup :=
    ((moveToFront_perm "Y" _).nodup_iff).mpr h1
  have mYiff : ("Y" ∈ moveToFront "M" l) = ("Y" ∈ l) :=
    propext (moveToFront_perm "M" l).mem_iff
  have mXiff : ("X" ∈ moveToFront "Y" (moveToFront "M" l)) = ("X" ∈ l) :=
    propext (((moveToFront_perm "Y" _).mem_iff).trans
      (moveToFront_perm "M" l).mem_iff)
  rw [moveToFront_eq "X" _ h2]
  simp only [mXiff]
  rw [moveToFront_eq "Y" _ h1]
  simp only [mYiff]
  rw [moveToFront_eq "M" _ h]
  by_cases hM : "M" ∈ l <;> by_cases hY : "Y" ∈ l <;> by_cases hX : "X" ∈ l <;>
    simp [reservedFront, hM, hY, hX, List.filter_append, List.filter_filter] <;>
    exact List.filter_congr (fun y _ => by
      by_cases e1 : y = "X" <;> by_cases e2 : y = "Y" <;> by_cases e3 : y = "M" <;>
        simp [e1, e2, e3])

/-- C2 as amended: when the discovered labels are distinct, the first k
positions of the scan order are exactly the purely numeric labels sorted
ascending by numeric value (so "2" precedes "10"), every non-numeric label
lands at an index at least k, and the non-numeric suffix consists of the
reserved labels that are present — in the order X, Y, M, because the loop
inserts M, then Y, then X each at the front — followed by the remaining
non-numeric labels in discovery order. -/
theorem scanOrder_spec (labels : List String) (hnd : labels.Nodup) :
    ((scanOrder labels).take (labels.filter pyIsDigit).length).Perm
        (labels.filter pyIsDigit) ∧
    List.Sorted (fun a b => numKey a ≤ numKey b)
        ((scanOrder labels).take (labels.filter pyIsDigit).length) ∧
    (scanOrder labels).drop (labels.filter pyIsDigit).length =
      reservedFront (labels.filter (fun l => !pyIsDigit l)) := by
  have hlen : (sortedNumIds labels).length = (labels.filter pyIsDigit).length :=
    (List.perm_insertionSort _ _).length_eq
  unfold scanOrder
  rw [← hlen, List.take_left, List.drop_left]
  refine ⟨List.perm_insertionSort _ _, ?_, ?_⟩
  · haveI : IsTotal String (fun a b => numKey a ≤ numKey b) :=
      ⟨fun a b => Nat.le_total _ _⟩
    haveI : IsTrans String (fun a b => numKey a ≤ numKey b) :=
      ⟨fun a b c => Nat.le_trans⟩
    exact List.sorted_insertionSort _ _
  · unfold nonnumIds
    exact reserved_loop_eq _ (hnd.filter _)

/-- Witness for the amended C2 on distinct labels mixing numeric, reserved
and other non-numeric names. -/
theorem scanOrder_spec_witness :
    (["10", "2", "M", "X", "W"] : List String).Nodup ∧
    (((scanOrder ["10", "2", "M", "X", "W"]).take
        ((["10", "2", "M", "X", "W"] : List String).filter pyIsDigit).length).Perm
        ((["10", "2", "M", "X", "W"] : List String).filter pyIsDigit) ∧
      List.Sorted (fun a b => numKey a ≤ numKey b)
        ((scanOrder ["10", "2", "M", "X", "W"]).take
          ((["10", "2", "M", "X", "W"] : List String).filter pyIsDigit).length) ∧
      (scanOrder ["10", "2", "M", "X", "W"]).drop
          ((["10", "2", "M", "X", "W"] : List String).filter pyIsDigit).length =
        reservedFront ((["10", "2", "M", "X", "W"] : List String).filter
          (fun l => !pyIsDigit l))) :=
  ⟨by decide, scanOrder_spec ["10", "2", "M", "X", "W"] (by decide)⟩

/-- Counterexample to C2 as stated: with the non-numeric discovery order
M, X, Y, W the claimed front priority order mitochondrial-Y-X would put M at
the first non-numeric index, but the loop inserts M, then Y, then X each at
the front, so the computed order is X, Y, M, W and M lands at index 2. -/
theorem scanOrder_reserved_counterexample :
    scanOrder ["M", "X", "Y", "W"] = ["X", "Y", "M", "W"] ∧
    scanOrder ["M", "X", "Y", "W"] ≠ ["M", "Y", "X", "W"] := by
  decide

/-- Warnings that `checkReadConsistency` can emit (lines 469-474):
chromosome zero absent from the input, or the largest supplied chromosome
index stopping short of the genome's last chromosome. -/
inductive CheckWarning where
  | zeroAbsent : CheckWarning
  | fewerChrms : CheckWarning
deriving DecidableEq

/-- Errors that `checkReadConsistency` can raise: the two `StandardError`
raises of lines 471-472 and 480-482, and the `ValueError` that Python raises
on line 479 when the slice step `len(inds)/10` is zero. -/
inductive CheckError where
  | chromTooLarge : Nat → Nat → CheckError
  | positionExceeds : Nat → Nat → Nat → CheckError
  | sliceStepZero : CheckError
deriving DecidableEq

/-- Embedding of `Genome.checkReadConsistency` (lines 464-482).  Warnings are
collected in program order; the first raise aborts the run.  `numpy` fancy
indexing `self.chrmLens[chromosomes]` and the elementwise comparison
`positions > maxpositions` become per-index lookups; `inds` is the list of
violation indices (`numpy.nonzero(check)[0]`), and `inds[::len(inds)/10]`
raises `ValueError` when the computed step `len(inds)/10` is zero, i.e. when
there are fewer than ten violations; otherwise the first reported sample is
`inds[0]`, the first violation. -/
def checkReadConsistency (chrmCount : Nat)
    (chrmLens chromosomes positions : List Nat) :
    List CheckWarning × Option CheckError :=
  let w1 : List CheckWarning :=
    if 0 ∈ chromosomes then [] else [CheckWarning.zeroAbsent]
  let mx := chromosomes.foldl Nat.max 0
  if mx ≥ chrmCount then
    (w1, some (CheckError.chromTooLarge mx chrmCount))
  else
    let w2 : List CheckWarning :=
      if mx < chrmCount - 1 then [CheckWarning.fewerChrms] else []
    let inds := (List.range (min chromosomes.length positions.length)).filter
      (fun i => decide (chrmLens.getD (chromosomes.getD i 0) 0 <
        positions.getD i 0))
    if inds.isEmpty then (w1 ++ w2, none)
    else if inds.length / 10 = 0 then
      (w1 ++ w2, some CheckError.sliceStepZero)
    else
      let i := inds.headD 0
      (w1 ++ w2, some (CheckError.positionExceeds (chromosomes.getD i 0)
        (positions.getD i 0) (chrmLens.getD (chromosomes.getD i 0) 0)))

/-- C7 evidence: with a single overlong-position violation the code reaches
`inds[::len(inds)/10]` with step `1/10 = 0` and Python raises
`ValueError: slice step cannot be zero` instead of the documented
`StandardError` carrying the first offending sample; with ten or more
violations the spread sampling works and the first offending sample is
reported as claimed. -/
theorem checkReadConsistency_step_zero_bug :
    checkReadConsistency 1 [10] [0] [11] =
      ([], some CheckError.sliceStepZero) ∧
    checkReadConsistency 1 [10] (List.replicate 10 0) (List.replicate 10 11) =
      ([], some (CheckError.positionExceeds 0 11 10)) := by
  decide

/-- One relevant record of the gap file as read by `_parseGapFile`
(lines 317-324): the 8th whitespace-separated field (`splitline[7]`), the
chromosome label with the three-character `chr` prefix already stripped
(`splitline[1][3:]`), and the start and end fields
(`splitline[2]`, `splitline[3]`). -/
structure GapLine where
  kind : String
  label : String
  first : Int
  last : Int
deriving DecidableEq

/-- Embedding of the body of the `for line in gapFile` loop of
`_parseGapFile`: a line updates the centromere start/end entries of the
chromosome only when its 8th field is `centromere` and its label is a known
chromosome (`if chrm_str in self.label2idx`). -/
def applyGapLine (labels : List String) (acc : List Int × List Int)
    (line : GapLine) : List Int × List Int :=
  if line.kind = "centromere" then
    match labels.indexOf? line.label with
    | some idx => (acc.1.set idx line.first, acc.2.set idx line.last)
    | none => acc
  else acc

/-- Embedding of `Genome._parseGapFile` (lines 304-326).  The starts are
initialized with `-1 * numpy.ones(...)`, i.e. all `-1`; the ends with
`-1 * numpy.zeros(...)`, which is all zeros; midpoints are
`(cntrStarts + cntrEnds) / 2` with numpy floor division (`Int.fdiv`).
Returns (cntrStarts, cntrEnds, cntrMids). -/
def parseGapFile (labels : List String) (lines : List GapLine) :
    List Int × List Int × List Int :=
  let starts0 : List Int := List.replicate labels.length (-1)
  let ends0 : List Int := List.replicate labels.length 0
  let se := lines.foldl (applyGapLine labels) (starts0, ends0)
  (se.1, se.2, List.zipWith (fun s e => Int.fdiv (s + e) 2) se.1 se.2)

/-- Counterexample to C8 as stated: a one-chromosome genome with no
centromere record ends up with `cntrStarts = [-1]` and `cntrMids = [-1]`,
but `cntrEnds = [0]`, because `-1 * numpy.zeros(...)` is all zeros, not all
`-1`; the end sentinel is `0`, not `-1`. -/
theorem parseGapFile_counterexample :
    parseGapFile ["1"] [] = ([-1], [0], [-1]) ∧
    ((0 : Int) ≠ -1) := by
  decide

lemma foldl_applyGapLine_lengths (labels : List String) :
    ∀ (lines : List GapLine) (acc : List Int × List Int),
      ((lines.foldl (applyGapLine labels) acc).1.length = acc.1.length ∧
        (lines.foldl (applyGapLine labels) acc).2.length = acc.2.length) := by
  intro lines
  induction lines with
  | nil => exact fun acc => ⟨rfl, rfl⟩
  | cons line rest ih =>
    intro acc
    have hstep : (applyGapLine labels acc line).1.length = acc.1.length ∧
        (applyGapLine labels acc line).2.length = acc.2.length := by
      unfold applyGapLine
      by_cases hk : line.kind = "centromere"
      · rw [if_pos hk]
        cases labels.indexOf? line.label with
        | none => exact ⟨rfl, rfl⟩
        | some idx => exact ⟨List.length_set _ _ _, List.length_set _ _ _⟩
      · rw [if_neg hk]
        exact ⟨rfl, rfl⟩
    have hrest := ih (applyGapLine labels acc line)
    rw [List.foldl_cons]
    exact ⟨hrest.1.trans hstep.1, hrest.2.trans hstep.2⟩

lemma foldl_applyGapLine_untouched (labels : List String) (c : Nat) :
    ∀ (lines : List GapLine) (acc : List Int × List Int),
      (∀ line ∈ lines, line.kind = "centromere" →
        labels.indexOf? line.label ≠ some c) →
      ((lines.foldl (applyGapLine labels) acc).1.getD c 0 = acc.1.getD c 0 ∧
        (lines.foldl (applyGapLine labels) acc).2.getD c 0 = acc.2.getD c 0) := by
  intro lines
  induction lines with
  | nil => exact fun acc _ => ⟨rfl, rfl⟩
  | cons line rest ih =>
    intro acc h
    have hrest := ih (applyGapLine labels acc line)
      (fun l hl hk => h l (List.mem_cons_of_mem line hl) hk)
    have hstep : (applyGapLine labels acc line).1.getD c 0 = acc.1.getD c 0 ∧
        (applyGapLine labels acc line).2.getD c 0 = acc.2.getD c 0 := by
      unfold applyGapLine
      by_cases hk : line.kind = "centromere"
      · rw [if_pos hk]
        cases hidx : labels.indexOf? line.label with
        | none => exact ⟨rfl, rfl⟩
        | some idx =>
          have hne : idx ≠ c := by
            intro hc
            exact h line (List.mem_cons_self line rest) hk (hc ▸ hidx)
          constructor
          · simp [List.getD, List.getElem?_set_ne hne]
          · simp [List.getD, List.getElem?_set_ne hne]
      · rw [if_neg hk]
        exact ⟨rfl, rfl⟩
    rw [List.foldl_cons]
    exact ⟨(hrest.1).trans hstep.1, (hrest.2).trans hstep.2⟩

/-- C8 as amended: every chromosome without a centromere record carries the
`-1` sentinel in its centromere start and midpoint entries, but `0` — not
`-1` — in its end entry, since the ends are initialized from
`-1 * numpy.zeros(...)`. -/
theorem parseGapFile_sentinels (labels : List String) (lines : List GapLine)
    (c : Nat) (hc : c < labels.length)
    (h : ∀ line ∈ lines, line.kind = "centromere" →
      labels.indexOf? line.label ≠ some c) :
    (parseGapFile labels lines).1.getD c 0 = -1 ∧
    (parseGapFile labels lines).2.1.getD c 0 = 0 ∧
    (parseGapFile labels lines).2.2.getD c 0 = -1 := by
  unfold parseGapFile
  have huntouched := foldl_applyGapLine_untouched labels c lines
    (List.replicate labels.length (-1), List.replicate labels.length 0) h
  have hs : (lines.foldl (applyGapLine labels)
      (List.replicate labels.length (-1),
        List.replicate labels.length 0)).1.getD c 0 = -1 := by
    rw [huntouched.1]
    simp [List.getD, List.getElem?_replicate, hc]
  have he : (lines.foldl (applyGapLine labels)
      (List.replicate labels.length (-1),
        List.replicate labels.length 0)).2.getD c 0 = 0 := by
    rw [huntouched.2]
    simp [List.getD, List.getElem?_replicate, hc]
  refine ⟨hs, he, ?_⟩
  have hlens := foldl_applyGapLine_lengths labels lines
    (List.replicate labels.length (-1), List.replicate labels.length 0)
  have hSlen : (lines.foldl (applyGapLine labels)
      (List.replicate labels.length (-1),
        List.replicate labels.length 0)).1.length = labels.length := by
    rw [hlens.1, List.length_replicate]
  have hElen : (lines.foldl (applyGapLine labels)
      (List.replicate labels.length (-1),
        List.replicate labels.length 0)).2.length = labels.length := by
    rw [hlens.2, List.length_replicate]
  have hcS : c < (lines.foldl (applyGapLine labels)
      (List.replicate labels.length (-1),
        List.replicate labels.length 0)).1.length := by omega
  have hcE : c < (lines.foldl (applyGapLine labels)
      (List.replicate labels.length (-1),
        List.replicate labels.length 0)).2.length := by omega
  have hcz : c < (List.zipWith (fun s e => Int.fdiv (s + e) 2)
      (lines.foldl (applyGapLine labels)
        (List.replicate labels.length (-1),
          List.replicate labels.length 0)).1
      (lines.foldl (applyGapLine labels)
        (List.replicate labels.length (-1),
          List.replicate labels.length 0)).2).length := by
    rw [List.length_zipWith]
    omega
  rw [List.getD_eq_getElem _ _ hcz, List.getElem_zipWith]
  rw [List.getD_eq_getElem _ _ hcS] at hs
  rw [List.getD_eq_getElem _ _ hcE] at he
  rw [hs, he]
  decide

/-- Witness for the amended C8: a two-chromosome genome whose only
centromere record names chromosome 1, so chromosome 2 keeps the initial
entries. -/
theorem parseGapFile_sentinels_witness :
    (parseGapFile ["1", "2"] [⟨"centromere", "1", 5, 9⟩]).1.getD 1 0 = -1 ∧
    (parseGapFile ["1", "2"] [⟨"centromere", "1", 5, 9⟩]).2.1.getD 1 0 = 0 ∧
    (parseGapFile ["1", "2"] [⟨"centromere", "1", 5, 9⟩]).2.2.getD 1 0 = -1 :=
  parseGapFile_sentinels ["1", "2"] [⟨"centromere", "1", 5, 9⟩] 1
    (by decide) (by decide)

/-- Identity tuple of a genome as used by the memoization key
(`_memoize`, lines 169-172): the chromosome filter `readChrms`, the gap-file
path and the chromosome file-name template. -/
structure GenomeIdentity where
  readChrms : List String
  gapFile : String
  chrmFileTemplate : String
deriving DecidableEq

/-- Lookup in the persistent store by exact key equality. -/
def storeLookup {V : Type}
    (st : List ((GenomeIdentity × String × List Nat) × V))
    (k : GenomeIdentity × String × List Nat) : Option V :=
  match st with
  | [] => none
  | kv :: t => if kv.1 = k then some kv.2 else storeLookup t k

/-- Modelled from the spec: the persistent cache behind
`joblib.Memory.cache` is an external collaborator (the `joblib` library is
not part of this repository).  Per the spec's Memoization Cache contract it
consults the persistent store under the computed key and either returns the
stored result or computes, stores and returns it.  The third component
counts how many times the wrapped function was invoked during the call. -/
def memCachedCall {V : Type}
    (runF : (GenomeIdentity × String × List Nat) → V)
    (st : List ((GenomeIdentity × String × List Nat) × V))
    (k : GenomeIdentity × String × List Nat) :
    V × List ((GenomeIdentity × String × List Nat) × V) × Nat :=
  match storeLookup st k with
  | some v => (v, st, 0)
  | none => (runF k, (k, runF k) :: st, 1)

/-- The inner
`run_func(readChrms, gapFile, chrmFileTemplate, func_name, *args)` of
`Genome._memoize` (lines 163-165): dispatch `getattr(self, func_name)(*args)`
over a table of derivation methods. -/
def run_func {V : Type} (methods : String → List Nat → V)
    (k : GenomeIdentity × String × List Nat) : V :=
  methods k.2.1 k.2.2

/-- The `memoized_func(*args)` closure returned by `Genome._memoize`
(lines 169-174): call the cached `run_func` on the key made of the genome
identity tuple, the function name and the call arguments. -/
def memoized_func {V : Type} (methods : String → List Nat → V)
    (ident : GenomeIdentity) (name : String)
    (st : List ((GenomeIdentity × String × List Nat) × V))
    (args : List Nat) :
    V × List ((GenomeIdentity × String × List Nat) × V) × Nat :=
  memCachedCall (run_func methods) st (ident, name, args)

/-- A store is consistent when every cached entry equals what `run_func`
computes for its key; the spec trusts every cached result for its key. -/
def StoreConsistent {V : Type} (methods : String → List Nat → V)
    (st : List ((GenomeIdentity × String × List Nat) × V)) : Prop :=
  ∀ kv ∈ st, kv.2 = run_func methods kv.1

lemma storeLookup_consistent {V : Type} (methods : String → List Nat → V)
    (st : List ((GenomeIdentity × String × List Nat) × V))
    (hst : StoreConsistent methods st)
    (k : GenomeIdentity × String × List Nat) (v : V)
    (h : storeLookup st k = some v) : v = run_func methods k := by
  induction st with
  | nil => exact absurd h (by simp [storeLookup])
  | cons kv t ih =>
    unfold storeLookup at h
    by_cases hk : kv.1 = k
    · rw [if_pos hk] at h
      have hv : kv.2 = v := Option.some.inj h
      rw [← hv, hst kv (List.mem_cons_self kv t), hk]
    · rw [if_neg hk] at h
      exact ih (fun x hx => hst x (List.mem_cons_of_mem kv hx)) h

/-- C9: against a consistent store, the wrapper of `_memoize` is
extensionally the underlying derivation — the first call returns
`self.name(*args)` and leaves a consistent store — and a second call with the
same identity tuple, name and arguments returns the identical stored value
without invoking the underlying computation again. -/
theorem memoize_spec {V : Type} (methods : String → List Nat → V)
    (ident : GenomeIdentity) (name : String) (args : List Nat)
    (st : List ((GenomeIdentity × String × List Nat) × V))
    (hst : StoreConsistent methods st) :
    (memoized_func methods ident name st args).1 = methods name args ∧
    StoreConsistent methods (memoized_func methods ident name st args).2.1 ∧
    (memoized_func methods ident name
        (memoized_func methods ident name st args).2.1 args).1 =
      (memoized_func methods ident name st args).1 ∧
    (memoized_func methods ident name
        (memoized_func methods ident name st args).2.1 args).2.2 = 0 := by
  unfold memoized_func memCachedCall
  cases hlk : storeLookup st (ident, name, args) with
  | some v =>
    have hv : v = run_func methods (ident, name, args) :=
      storeLookup_consistent methods st hst _ v hlk
    simp only [hlk]
    refine ⟨by rw [hv]; rfl, hst, ?_, ?_⟩ <;> simp [hlk]
  | none =>
    simp only [hlk]
    have hcons : StoreConsistent methods
        (((ident, name, args), run_func methods (ident, name, args)) :: st) := by
      intro kv hkv
      rcases List.mem_cons.mp hkv with rfl | hkv
      · rfl
      · exact hst kv hkv
    have hlk2 : storeLookup
        (((ident, name, args), run_func methods (ident, name, args)) :: st)
        (ident, name, args) = some (run_func methods (ident, name, args)) := by
      unfold storeLookup
      rw [if_pos rfl]
    refine ⟨rfl, hcons, ?_, ?_⟩ <;> simp [hlk2]

/-- Witness for C9 with a concrete method table and an empty store. -/
theorem memoize_spec_witness :
    StoreConsistent (fun _ args => args.length) [] ∧
    (memoized_func (fun _ args => args.length) ⟨["#"], "gap.txt", "chr%s.fa"⟩
        "_getChrmLen" [] [7, 8]).1 = 2 :=
  ⟨fun kv hkv => absurd hkv (List.not_mem_nil kv),
    (memoize_spec (fun _ args => args.length) ⟨["#"], "gap.txt", "chr%s.fa"⟩
        "_getChrmLen" [7, 8] []
        (fun kv hkv => absurd hkv (List.not_mem_nil kv))).1⟩

end Mirnylib
